import Mathlib

/-!
# The COAI analysis bridge (`mcp-bridge/index.js`)

A shallow embedding of the bridge process: the configuration read at start-up,
the list-tools handler and the call-tool handler, together with the fragment of
JavaScript they rely on (truthiness, property reads, string conversion inside a
template literal, `JSON.stringify` with a two-space gap).

The outbound HTTP call is the only interaction with the outside world; it is
modelled by a function from the request that is sent to the outcome the HTTP
client reports (a resolved response or a rejection).  A run of the call-tool
handler records the requests it sent and either the value it returned or the
error it threw.
-/

namespace McpBridge

/-! ## JavaScript values -/

/-- A JavaScript number as it reaches the bridge, which only ever sees numbers that
came out of parsing a JSON body: a finite number, identified with the decimal
literal that `Number::toString` prints for it (so `0` and `-0` are both `"0"`), or
an infinity (a JSON literal too large for a double). Floating-point arithmetic
itself is not part of the embedding. -/
inductive JSNum where
  | finite (lit : String)
  | inf (neg : Bool)
  deriving DecidableEq, Repr

/-- The JavaScript values that can come out of parsing a JSON text. The value
`undefined` is not one of them; an absent property is `none` of `Option JSVal`.
A string is a sequence of Unicode scalar values (a string with an unpaired surrogate
has no counterpart here). An object is the list of its own properties in enumeration
order; the names in it are pairwise distinct in every value that JavaScript builds,
which `JSVal.isJSON` states where it matters. -/
inductive JSVal where
  | null
  | bool (b : Bool)
  | num (n : JSNum)
  | str (s : String)
  | arr (xs : List JSVal)
  | obj (kvs : List (String × JSVal))
  deriving Repr

/-- The response object the HTTP client hands over: `response.data` is the body,
parsed as JSON when it parses and the raw text otherwise. -/
structure AxiosResponse where
  status : Nat
  data : JSVal

/-- A JavaScript error object. `response` is set on HTTP-client errors that carry
the answer of the server and is `undefined` on every other error. -/
structure JSError where
  name : String
  message : String
  response : Option AxiosResponse := none

/-- The message of `Number::toString`. -/
def JSNum.toStr : JSNum → String
  | .finite lit => lit
  | .inf false => "Infinity"
  | .inf true => "-Infinity"

/-- Whether `ToBoolean` of a number is `false`: the number is zero. -/
def JSNum.isZero : JSNum → Bool
  | .finite lit => lit == "0"
  | .inf _ => false

/-- The abstract operation `ToBoolean`. -/
def JSVal.truthy : JSVal → Bool
  | .null => false
  | .bool b => b
  | .num n => !n.isZero
  | .str s => s != ""
  | .arr _ => true
  | .obj _ => true

/-- The operator `a || b` with a left operand that may be `undefined`. -/
def jsOr (a : Option JSVal) (b : JSVal) : JSVal :=
  match a with
  | some v => if v.truthy then v else b
  | none => b

/-- The error of `OrdinaryToPrimitive` when neither `toString` nor `valueOf`
yields a primitive (message as worded by V8). -/
def toPrimitiveError : JSError :=
  { name := "TypeError", message := "Cannot convert object to primitive value" }

mutual
/-- The abstract operation `ToString`, as a template literal applies it to a
substitution. A plain object inherits `Object.prototype.toString`, unless it has an
own property named `toString`: that property came out of JSON, is not callable, and
`valueOf` gives back the object, so the conversion throws. An array is joined with
commas. -/
def JSVal.toStr : JSVal → Except JSError String
  | .null => .ok "null"
  | .bool true => .ok "true"
  | .bool false => .ok "false"
  | .num n => .ok n.toStr
  | .str s => .ok s
  | .arr xs => JSVal.joinStr xs
  | .obj kvs =>
    if kvs.any (fun kv => kv.1 == "toString") then .error toPrimitiveError
    else .ok "[object Object]"
/-- The method `Array.prototype.join` with separator `","`: a `null` element
contributes the empty string. -/
def JSVal.joinStr : List JSVal → Except JSError String
  | [] => .ok ""
  | .null :: [] => .ok ""
  | v :: [] => v.toStr
  | .null :: w :: t =>
    match JSVal.joinStr (w :: t) with
    | .ok r => .ok ("," ++ r)
    | .error e => .error e
  | v :: w :: t =>
    match v.toStr with
    | .ok s =>
      match JSVal.joinStr (w :: t) with
      | .ok r => .ok (s ++ "," ++ r)
      | .error e => .error e
    | .error e => .error e
end

/-- The error of reading a property of `null` (message as worded by V8). -/
def nullReadError (k : String) : JSError :=
  { name := "TypeError", message := "Cannot read properties of null (reading '" ++ k ++ "')" }

/-- A property read `v.k` for a property name that no built-in prototype defines
(the bridge reads `result` and `error` only): an own property of an object, an
error on `null`, and `undefined` on every other value. -/
def JSVal.getProp (v : JSVal) (k : String) : Except JSError (Option JSVal) :=
  match v with
  | .null => .error (nullReadError k)
  | .obj kvs => .ok (kvs.lookup k)
  | _ => .ok none

/-- The optional chain `v?.k` for such a property name: `undefined` when `v` is
`undefined` or `null`. -/
def optGetProp (v : Option JSVal) (k : String) : Option JSVal :=
  match v with
  | some (.obj kvs) => kvs.lookup k
  | _ => none

/-! ## `JSON.stringify(value, null, 2)` -/

/-- A lower-case hexadecimal digit. -/
def hexDigit (n : Nat) : Char :=
  if n < 10 then Char.ofNat (48 + n) else Char.ofNat (87 + n)

/-- The operation `UnicodeEscape`: a backslash, `u` and four hexadecimal digits. -/
def unicodeEscape (c : Char) : List Char :=
  [Char.ofNat 92, 'u', hexDigit (c.toNat / 4096 % 16), hexDigit (c.toNat / 256 % 16),
    hexDigit (c.toNat / 16 % 16), hexDigit (c.toNat % 16)]

/-- The escape of one code point inside `QuoteJSONString`: the short escapes for
backspace, tab, line feed, form feed, carriage return, the double quote and the
backslash, a `UnicodeEscape` for the other control characters, and the code point
itself otherwise. -/
def quoteChar (c : Char) : List Char :=
  if c.toNat = 8 then [Char.ofNat 92, 'b']
  else if c.toNat = 9 then [Char.ofNat 92, 't']
  else if c.toNat = 10 then [Char.ofNat 92, 'n']
  else if c.toNat = 12 then [Char.ofNat 92, 'f']
  else if c.toNat = 13 then [Char.ofNat 92, 'r']
  else if c.toNat = 34 then [Char.ofNat 92, Char.ofNat 34]
  else if c.toNat = 92 then [Char.ofNat 92, Char.ofNat 92]
  else if c.toNat < 32 then unicodeEscape c
  else [c]

/-- The body of a quoted string: every code point escaped in turn. -/
def quoteChars : List Char → List Char
  | [] => []
  | c :: cs => quoteChar c ++ quoteChars cs

/-- The operation `QuoteJSONString`. -/
def quoteJSONString (s : String) : List Char :=
  Char.ofNat 34 :: (quoteChars s.data ++ [Char.ofNat 34])

/-- The gap of `JSON.stringify(value, null, 2)`: two spaces. -/
def gap : List Char := [' ', ' ']

/-- The pieces of an array or an object joined by a separator. -/
def joinWith (sep : List Char) : List (List Char) → List Char
  | [] => []
  | [a] => a
  | a :: b :: t => a ++ sep ++ joinWith sep (b :: t)

/-- The closing steps of `SerializeJSONArray` and `SerializeJSONObject` with a
non-empty gap: the two brackets alone when there is nothing between them, and
otherwise one piece per line, indented by `stepback` plus the gap, with the closing
bracket on a line of its own at `stepback`. -/
def wrapParts (opening closing : Char) (stepback : List Char) (parts : List (List Char)) :
    List Char :=
  match parts with
  | [] => [opening, closing]
  | _ :: _ =>
    [opening, Char.ofNat 10] ++ (stepback ++ gap)
      ++ joinWith ([',', Char.ofNat 10] ++ (stepback ++ gap)) parts
      ++ [Char.ofNat 10] ++ stepback ++ [closing]

mutual
/-- The operation `SerializeJSONProperty` at the current indentation, for a value
that came out of JSON (no `toJSON` method, no function, no `undefined`). A number
that is not finite is written `null`. -/
def serializeJSONProperty (indent : List Char) : JSVal → List Char
  | .null => ['n', 'u', 'l', 'l']
  | .bool true => ['t', 'r', 'u', 'e']
  | .bool false => ['f', 'a', 'l', 's', 'e']
  | .num (.finite lit) => lit.data
  | .num (.inf _) => ['n', 'u', 'l', 'l']
  | .str s => quoteJSONString s
  | .arr xs => wrapParts '[' ']' indent (serializeJSONArray (indent ++ gap) xs)
  | .obj kvs =>
    wrapParts (Char.ofNat 123) (Char.ofNat 125) indent (serializeJSONObject (indent ++ gap) kvs)
/-- The pieces of `SerializeJSONArray`: one serialization per element. -/
def serializeJSONArray (indent : List Char) : List JSVal → List (List Char)
  | [] => []
  | v :: t => serializeJSONProperty indent v :: serializeJSONArray indent t
/-- The pieces of `SerializeJSONObject`: the quoted key, a colon, a space and the
serialization of the value, for every own property. -/
def serializeJSONObject (indent : List Char) : List (String × JSVal) → List (List Char)
  | [] => []
  | (k, v) :: t =>
    (quoteJSONString k ++ [':', ' '] ++ serializeJSONProperty indent v)
      :: serializeJSONObject indent t
end

/-- The call `JSON.stringify(value, null, 2)`. It returns `undefined` when the value is
`undefined`. -/
def JSON.stringify (value : Option JSVal) : Option String :=
  match value with
  | none => none
  | some v => some (String.mk (serializeJSONProperty [] v))

/-! ## Configuration -/

/-- The environment variables the bridge reads. -/
structure Env where
  COAI_SERVER_URL : Option String
  COAI_MCP_TOKEN : Option String
  COAI_USER_ID : Option String

/-- The expression `process.env.X || fallback`: the fallback replaces a variable that is
unset or empty. -/
def envOr (v : Option String) (fallback : String) : String :=
  match v with
  | some s => if s = "" then fallback else s
  | none => fallback

/-- The method `String.prototype.includes`. -/
def includes (s t : String) : Bool :=
  s.data.tails.any (fun u => t.data.isPrefixOf u)

def SERVER_URL (env : Env) : String :=
  envOr env.COAI_SERVER_URL "https://api.co-ai.run/api/mcp/analyze"

def MCP_TOKEN (env : Env) : String :=
  envOr env.COAI_MCP_TOKEN "codenose-mcp-secret-key"

def USER_ID (env : Env) : String :=
  envOr env.COAI_USER_ID "1"

def isLocal (env : Env) : Bool :=
  includes (SERVER_URL env) "localhost" || includes (SERVER_URL env) "127.0.0.1"

/-- The option `rejectUnauthorized` of the HTTPS agent the client is created with. -/
def rejectUnauthorized (env : Env) : Bool :=
  !isLocal env

/-! ## The list-tools handler -/

/-- One entry of `inputSchema.properties`. -/
structure PropertySchema where
  type : String
  description : String
  default : Option String := none
  deriving DecidableEq, Repr

structure InputSchema where
  type : String
  properties : List (String × PropertySchema)
  required : List String
  deriving DecidableEq, Repr

structure ToolDescriptor where
  name : String
  description : String
  inputSchema : InputSchema
  deriving DecidableEq, Repr

structure ListToolsResult where
  tools : List ToolDescriptor
  deriving DecidableEq, Repr

/-- The handler registered for `ListToolsRequestSchema`. It takes no argument. -/
def listToolsHandler : ListToolsResult :=
  { tools :=
      [ { name := "analyze_code_with_coai"
          description :=
            "Analyze code using the Coai (CodeNose) AI engine to find bugs, mistakes, and improvements."
          inputSchema :=
            { type := "object"
              properties :=
                [ ("code",
                    { type := "string"
                      description := "The source code content to analyze" }),
                  ("language",
                    { type := "string"
                      description := "The programming language of the code (e.g., java, python, js)"
                      default := some "java" }) ]
              required := ["code"] } } ] }

/-! ## The call-tool handler -/

/-- The field `params` of a call-tool request: `arguments` is optional in the request
schema and, when present, is a record. -/
structure CallToolParams where
  name : String
  arguments : Option (List (String × JSVal))

/-- The body of the outbound POST. `code` is `undefined` when the caller gave none. -/
structure PostBody where
  code : Option JSVal
  language : JSVal
  userId : String

/-- One call `axiosInstance.post(url, body, { headers })`. -/
structure PostRequest where
  url : String
  body : PostBody
  headers : List (String × String)

/-- What the HTTP client reports for one POST: the promise resolves with a response
(a 2xx status) or rejects with an error (no answer, or an answer with another status). -/
inductive PostOutcome where
  | resolved (response : AxiosResponse)
  | rejected (error : JSError)

/-- One block of `content`. `text` may turn out `undefined`. -/
structure TextContent where
  type : String
  text : Option String
  deriving DecidableEq, Repr

/-- The object a call-tool handler returns. `isError` is `none` when the object
has no such field. -/
structure ToolCallResult where
  content : List TextContent
  isError : Option Bool
  deriving DecidableEq, Repr

/-- A run of the call-tool handler: the POST requests it issued, in order, and how it
ended: `ok` with the returned value, `error` with the thrown error (the promise of the
handler rejects). -/
structure HandlerRun where
  posts : List PostRequest
  outcome : Except JSError ToolCallResult

/-- The error of destructuring `undefined` (message as worded by V8). -/
def destructureError : JSError :=
  { name := "TypeError"
    message :=
      "Cannot destructure property 'code' of 'request.params.arguments' as it is undefined." }

/-- The statements of the `try` block that follow the `await`: a rejection is thrown,
a response is turned into the returned object. -/
def tryBlock (outcome : PostOutcome) : Except JSError ToolCallResult :=
  match outcome with
  | .rejected error => .error error
  | .resolved response =>
    match response.data.getProp "result" with
    | .error e => .error e
    | .ok analysisResult =>
      .ok
        { content :=
            [ { type := "text"
                text :=
                  match analysisResult with
                  | some (.str s) => some s
                  | other => JSON.stringify other } ]
          isError := none }

/-- The `catch` block. -/
def catchBlock (error : JSError) : Except JSError ToolCallResult :=
  let errorMsg :=
    jsOr (optGetProp (error.response.map (fun r => r.data)) "error") (.str error.message)
  match errorMsg.toStr with
  | .error e => .error e
  | .ok s =>
    .ok
      { content := [ { type := "text", text := some ("Analysis Failed: " ++ s) } ]
        isError := some true }

/-- The call `axiosInstance.post(SERVER_URL, { code, language: language || 'java',
userId: USER_ID }, { headers })` for the argument record of the caller. -/
def outboundPost (env : Env) (args : List (String × JSVal)) : PostRequest :=
  let code := args.lookup "code"
  let language := args.lookup "language"
  { url := SERVER_URL env
    body :=
      { code := code
        language := jsOr language (.str "java")
        userId := USER_ID env }
    headers := [("X-MCP-Token", MCP_TOKEN env), ("Content-Type", "application/json")] }

/-- The handler registered for `CallToolRequestSchema`, run against a remote endpoint
that answers the request `q` with `remote q`. The destructuring of
`request.params.arguments` stands before the `try` block. -/
def callToolHandler (env : Env) (remote : PostRequest → PostOutcome)
    (params : CallToolParams) : HandlerRun :=
  if params.name = "analyze_code_with_coai" then
    match params.arguments with
    | none => { posts := [], outcome := .error destructureError }
    | some args =>
      { posts := [outboundPost env args]
        outcome :=
          match tryBlock (remote (outboundPost env args)) with
          | .ok result => .ok result
          | .error error => catchBlock error }
  else
    { posts := [], outcome := .error { name := "Error", message := "Tool not found" } }

/-! ## Sessions -/

/-- A request the bridge handles. -/
inductive Request where
  | listTools
  | callTool (params : CallToolParams)

/-- What the protocol layer gets back from a handler. -/
inductive Response where
  | tools (result : ListToolsResult)
  | call (run : HandlerRun)

/-- The dispatch on the request type. The handlers share no mutable state: the
answer is a function of the configuration, the request and the remote endpoint. -/
def handle (env : Env) (remote : PostRequest → PostOutcome) : Request → Response
  | .listTools => .tools listToolsHandler
  | .callTool params => .call (callToolHandler env remote params)

/-- The answers to a sequence of requests served one after the other; `world i` is
the behaviour of the remote endpoint while request number `i` is served. -/
def session (env : Env) (world : Nat → PostRequest → PostOutcome) :
    Nat → List Request → List Response
  | _, [] => []
  | i, r :: rs => handle env (world i) r :: session env world (i + 1) rs

/-! ## `JSON.parse` (for the statement that the text parses back) -/

/-- JSON whitespace: space, tab, line feed, carriage return. -/
def isWs (c : Char) : Bool :=
  c.toNat = 32 || c.toNat = 9 || c.toNat = 10 || c.toNat = 13

def skipWs : List Char → List Char
  | [] => []
  | c :: cs => if isWs c then skipWs cs else c :: cs

/-- The characters a JSON number literal is made of. -/
def isNumChar (c : Char) : Bool :=
  c.isDigit || c = '-' || c = '+' || c = '.' || c = 'e' || c = 'E'

/-- The exponent part of a number literal, after the `e`: an optional sign and at least
one digit. -/
def validExponent (l : List Char) : Bool :=
  match l with
  | [] => false
  | c :: t =>
    if c = '+' || c = '-' then !t.isEmpty && t.all Char.isDigit
    else (c :: t).all Char.isDigit

/-- What may follow the integer part of a number literal: an optional fraction (a point
and at least one digit) and an optional exponent. -/
def validFractionExponent (l : List Char) : Bool :=
  match l with
  | [] => true
  | c :: t =>
    if c = '.' then
      !(t.takeWhile Char.isDigit).isEmpty &&
        (match t.dropWhile Char.isDigit with
          | [] => true
          | e :: u => (e = 'e' || e = 'E') && validExponent u)
    else (c = 'e' || c = 'E') && validExponent t

/-- The grammar of a JSON number without its sign: an integer part with no superfluous
leading zero, then the optional fraction and exponent. -/
def validUnsigned (l : List Char) : Bool :=
  match l.takeWhile Char.isDigit with
  | [] => false
  | d :: ds => (d != '0' || ds.isEmpty) && validFractionExponent (l.dropWhile Char.isDigit)

/-- The grammar of a JSON number literal. -/
def isNumberLiteral (l : List Char) : Bool :=
  l.all isNumChar &&
    (match l with
      | [] => false
      | c :: t => if c = '-' then validUnsigned t else validUnsigned (c :: t))

/-- A number token: the longest run of number characters, accepted when it is a number
literal. The value is the number that prints as this literal; a literal in another
spelling than `Number::toString` uses is not normalised. -/
def parseNumber (input : List Char) : Option (JSVal × List Char) :=
  if isNumberLiteral (input.takeWhile isNumChar) then
    some (.num (.finite (String.mk (input.takeWhile isNumChar))), input.dropWhile isNumChar)
  else none

/-- The value of a hexadecimal digit. -/
def hexVal (c : Char) : Option Nat :=
  if c.isDigit then some (c.toNat - 48)
  else if 97 ≤ c.toNat ∧ c.toNat ≤ 102 then some (c.toNat - 87)
  else if 65 ≤ c.toNat ∧ c.toNat ≤ 70 then some (c.toNat - 55)
  else none

/-- The character a short escape stands for. -/
def unescape (e : Char) : Option Char :=
  if e = 'b' then some (Char.ofNat 8)
  else if e = 't' then some (Char.ofNat 9)
  else if e = 'n' then some (Char.ofNat 10)
  else if e = 'f' then some (Char.ofNat 12)
  else if e = 'r' then some (Char.ofNat 13)
  else if e.toNat = 34 then some e
  else if e.toNat = 92 then some e
  else if e = '/' then some e
  else none

/-- The body of a string literal up to and including the closing quote. A control
character must be escaped. An escape `\uXXXX` of a surrogate is rejected: the strings of
this development are sequences of Unicode scalar values. -/
def parseStringBody : List Char → Option (List Char × List Char)
  | [] => none
  | c :: rest =>
    if c.toNat = 34 then some ([], rest)
    else if c.toNat = 92 then
      match rest with
      | [] => none
      | e :: rest1 =>
        if e = 'u' then
          match rest1 with
          | h3 :: h2 :: h1 :: h0 :: rest2 =>
            match hexVal h3, hexVal h2, hexVal h1, hexVal h0 with
            | some n3, some n2, some n1, some n0 =>
              if (n3 * 4096 + n2 * 256 + n1 * 16 + n0).isValidChar then
                match parseStringBody rest2 with
                | some (s, r) => some (Char.ofNat (n3 * 4096 + n2 * 256 + n1 * 16 + n0) :: s, r)
                | none => none
              else none
            | _, _, _, _ => none
          | _ => none
        else
          match unescape e with
          | some d =>
            match parseStringBody rest1 with
            | some (s, r) => some (d :: s, r)
            | none => none
          | none => none
    else if c.toNat < 32 then none
    else
      match parseStringBody rest with
      | some (s, r) => some (c :: s, r)
      | none => none

/-- A keyword (`null`, `true`, `false`) at the head of the input. -/
def parseKeyword (word : List Char) (v : JSVal) (input : List Char) :
    Option (JSVal × List Char) :=
  if word.isPrefixOf input then some (v, input.drop word.length) else none

/-- The assignment `o[k] = v` on a property list: the value of an existing property is
replaced in place, a new property goes to the end. -/
def objSet (kvs : List (String × JSVal)) (k : String) (v : JSVal) : List (String × JSVal) :=
  match kvs with
  | [] => [(k, v)]
  | (k', v') :: t => if k' = k then (k, v) :: t else (k', v') :: objSet t k v

/-- The object built from the members of an object literal in the order of the text:
of two members with the same key the later one wins. -/
def mkObject (members : List (String × JSVal)) : List (String × JSVal) :=
  members.foldl (fun acc kv => objSet acc kv.1 kv.2) []

mutual
/-- A JSON value at the head of the input, after optional whitespace; the rest of the
input is returned with it. The first argument bounds the number of nested calls. -/
def parseValue : Nat → List Char → Option (JSVal × List Char)
  | 0, _ => none
  | fuel + 1, input =>
    match skipWs input with
    | [] => none
    | c :: rest =>
      if c = 'n' then parseKeyword ['n', 'u', 'l', 'l'] .null (c :: rest)
      else if c = 't' then parseKeyword ['t', 'r', 'u', 'e'] (.bool true) (c :: rest)
      else if c = 'f' then parseKeyword ['f', 'a', 'l', 's', 'e'] (.bool false) (c :: rest)
      else if c.toNat = 34 then
        match parseStringBody rest with
        | some (s, r) => some (.str (String.mk s), r)
        | none => none
      else if c = '[' then
        match skipWs rest with
        | [] => none
        | d :: r =>
          if d = ']' then some (.arr [], r)
          else
            match parseElements fuel rest with
            | some (xs, r') => some (.arr xs, r')
            | none => none
      else if c.toNat = 123 then
        match skipWs rest with
        | [] => none
        | d :: r =>
          if d.toNat = 125 then some (.obj [], r)
          else
            match parseMembers fuel rest with
            | some (ms, r') => some (.obj (mkObject ms), r')
            | none => none
      else if isNumChar c then parseNumber (c :: rest)
      else none
/-- The elements of a non-empty array up to and including the closing bracket. -/
def parseElements : Nat → List Char → Option (List JSVal × List Char)
  | 0, _ => none
  | fuel + 1, input =>
    match parseValue fuel input with
    | none => none
    | some (v, rest) =>
      match skipWs rest with
      | [] => none
      | c :: r =>
        if c = ',' then
          match parseElements fuel r with
          | some (xs, r') => some (v :: xs, r')
          | none => none
        else if c = ']' then some ([v], r)
        else none
/-- The members of a non-empty object up to and including the closing brace. -/
def parseMembers : Nat → List Char → Option (List (String × JSVal) × List Char)
  | 0, _ => none
  | fuel + 1, input =>
    match skipWs input with
    | [] => none
    | q :: afterQuote =>
      if q.toNat = 34 then
        match parseStringBody afterQuote with
        | none => none
        | some (k, afterKey) =>
          match skipWs afterKey with
          | [] => none
          | colon :: afterColon =>
            if colon = ':' then
              match parseValue fuel afterColon with
              | none => none
              | some (v, rest) =>
                match skipWs rest with
                | [] => none
                | c :: r =>
                  if c = ',' then
                    match parseMembers fuel r with
                    | some (ms, r') => some ((String.mk k, v) :: ms, r')
                    | none => none
                  else if c.toNat = 125 then some ([(String.mk k, v)], r)
                  else none
            else none
      else none
end

/-- The call `JSON.parse(text)`: one value, surrounded by optional whitespace, and
nothing else. -/
def JSON.parse (text : String) : Option JSVal :=
  match parseValue (text.data.length + 1) text.data with
  | some (v, rest) => if (skipWs rest).isEmpty then some v else none
  | none => none

mutual
/-- A measure of a value: the number of nested parser calls it takes to read. -/
def JSVal.size : JSVal → Nat
  | .null => 1
  | .bool _ => 1
  | .num _ => 1
  | .str _ => 1
  | .arr xs => JSVal.sizeList xs + 1
  | .obj kvs => JSVal.sizeFields kvs + 1
def JSVal.sizeList : List JSVal → Nat
  | [] => 0
  | v :: t => v.size + JSVal.sizeList t + 1
def JSVal.sizeFields : List (String × JSVal) → Nat
  | [] => 0
  | (_, v) :: t => v.size + JSVal.sizeFields t + 1
end

mutual
/-- A value that is a JSON value as it stands: no number in it is an infinity. The other
two conditions hold of every value JavaScript builds and only make the representation
exact: a finite number is written as a number literal, and no object has two properties
with the same name. -/
def JSVal.isJSON : JSVal → Bool
  | .null => true
  | .bool _ => true
  | .num (.finite lit) => isNumberLiteral lit.data
  | .num (.inf _) => false
  | .str _ => true
  | .arr xs => JSVal.allJSON xs
  | .obj kvs => JSVal.fieldsJSON kvs
def JSVal.allJSON : List JSVal → Bool
  | [] => true
  | v :: t => v.isJSON && JSVal.allJSON t
def JSVal.fieldsJSON : List (String × JSVal) → Bool
  | [] => true
  | (k, v) :: t => !(t.any (fun kv => kv.1 == k)) && v.isJSON && JSVal.fieldsJSON t
end

/-! ## The hostname of a URL (for the statement about the trust flag) -/

/-- The part of a list after the first occurrence of `sep`, if there is one. -/
def afterFirst (sep : List Char) : List Char → Option (List Char)
  | [] => if sep.isEmpty then some [] else none
  | c :: cs => if sep.isPrefixOf (c :: cs) then some ((c :: cs).drop sep.length)
               else afterFirst sep cs

/-- The part of a list after the last occurrence of the character `c`; the whole list
when `c` does not occur. -/
def afterLast (c : Char) (l : List Char) : List Char :=
  (l.reverse.takeWhile (fun d => d != c)).reverse

/-- The hostname of an absolute URL `scheme://userinfo@host:port/path?query#fragment`,
as the statement about the trust flag uses the word: what stands after `://` up to the
first `/`, `?` or `#`, without the user information and without the port. -/
def hostnameOf (url : String) : String :=
  let rest := (afterFirst [':', '/', '/'] url.data).getD url.data
  let authority := rest.takeWhile (fun c => c != '/' && c != '?' && c != '#')
  String.mk ((afterLast '@' authority).takeWhile (fun c => c != ':'))

/-! ## Reading back what `JSON.stringify` writes -/

/-- Skipping whitespace stops at the first character that is not whitespace. -/
theorem skipWs_append (ws : List Char) (c : Char) (rest : List Char)
    (hws : ∀ d ∈ ws, isWs d = true) (hc : isWs c = false) :
    skipWs (ws ++ c :: rest) = c :: rest := by
  induction ws with
  | nil => simp [skipWs, hc]
  | cons d ds ih =>
    have hd : isWs d = true := hws d (List.mem_cons_self _ _)
    simp only [List.cons_append, skipWs, hd, if_true]
    exact ih (fun e he => hws e (List.mem_cons_of_mem _ he))

/-- The four digits of the `UnicodeEscape` of a control character read back as its code. -/
theorem hexVal_hexDigit : ∀ n, n < 32 →
    hexVal (hexDigit (n / 4096 % 16)) = some 0 ∧ hexVal (hexDigit (n / 256 % 16)) = some 0 ∧
      hexVal (hexDigit (n / 16 % 16)) = some (n / 16) ∧
      hexVal (hexDigit (n % 16)) = some (n % 16) := by
  decide

/-- A character is determined by its code. -/
theorem char_eq_of_toNat {c : Char} {n : Nat} (h : c.toNat = n) : c = Char.ofNat n := by
  rw [← h, Char.ofNat_toNat]

/-- The parser reads a short escape as the character it stands for. -/
theorem parseStringBody_escape (e d : Char) (tail : List Char) (he : e ≠ 'u')
    (hu : unescape e = some d) :
    parseStringBody (Char.ofNat 92 :: e :: tail) =
      match parseStringBody tail with
      | some (s, r) => some (d :: s, r)
      | none => none := by
  rw [parseStringBody.eq_def]
  simp [he, hu]

/-- The parser reads the escape of one code point back as that code point. -/
theorem parseStringBody_quoteChar (c : Char) (tail : List Char) :
    parseStringBody (quoteChar c ++ tail) =
      match parseStringBody tail with
      | some (s, r) => some (c :: s, r)
      | none => none := by
  unfold quoteChar
  split_ifs with h8 h9 h10 h12 h13 h34 h92 h32
  · rw [char_eq_of_toNat h8]; exact parseStringBody_escape _ _ _ (by decide) (by decide)
  · rw [char_eq_of_toNat h9]; exact parseStringBody_escape _ _ _ (by decide) (by decide)
  · rw [char_eq_of_toNat h10]; exact parseStringBody_escape _ _ _ (by decide) (by decide)
  · rw [char_eq_of_toNat h12]; exact parseStringBody_escape _ _ _ (by decide) (by decide)
  · rw [char_eq_of_toNat h13]; exact parseStringBody_escape _ _ _ (by decide) (by decide)
  · rw [char_eq_of_toNat h34]; exact parseStringBody_escape _ _ _ (by decide) (by decide)
  · rw [char_eq_of_toNat h92]; exact parseStringBody_escape _ _ _ (by decide) (by decide)
  · obtain ⟨a3, a2, a1, a0⟩ := hexVal_hexDigit c.toNat h32
    have hv : (c.toNat / 16 * 16 + c.toNat % 16) = c.toNat := by omega
    have hvalid : c.toNat.isValidChar := Or.inl (by omega)
    simp only [unicodeEscape, List.cons_append, List.nil_append]
    rw [parseStringBody.eq_def]
    simp [a3, a2, a1, a0, hv, hvalid, Char.ofNat_toNat]
  · simp only [List.cons_append, List.nil_append]
    rw [parseStringBody.eq_def]
    simp [h34, h92, h32]

/-- The parser reads the body of a quoted string back, up to the closing quote. -/
theorem parseStringBody_quoteChars (cs rest : List Char) :
    parseStringBody (quoteChars cs ++ Char.ofNat 34 :: rest) = some (cs, rest) := by
  induction cs with
  | nil => rw [parseStringBody.eq_def]; simp [quoteChars]
  | cons c cs ih =>
    simp only [quoteChars, List.append_assoc]
    rw [parseStringBody_quoteChar, ih]

/-- A run of characters that satisfy `p`, followed by one that does not, is split at its end. -/
theorem takeWhile_append_stop (p : Char → Bool) (l rest : List Char)
    (hl : ∀ c ∈ l, p c = true) (hr : ∀ c, rest.head? = some c → p c = false) :
    (l ++ rest).takeWhile p = l ∧ (l ++ rest).dropWhile p = rest := by
  induction l with
  | nil =>
    cases rest with
    | nil => simp
    | cons c t => simp [List.takeWhile, List.dropWhile, hr c rfl]
  | cons a l ih =>
    have ha : p a = true := hl a (List.mem_cons_self _ _)
    have := ih (fun c hc => hl c (List.mem_cons_of_mem _ hc))
    simp [List.takeWhile, List.dropWhile, ha, this.1, this.2]

/-- A number literal that is not followed by a number character is read as one token. -/
theorem parseNumber_literal (lit rest : List Char) (hlit : isNumberLiteral lit = true)
    (hr : ∀ c, rest.head? = some c → isNumChar c = false) :
    parseNumber (lit ++ rest) = some (.num (.finite (String.mk lit)), rest) := by
  have hall : ∀ c ∈ lit, isNumChar c = true := by
    have : lit.all isNumChar = true := by
      unfold isNumberLiteral at hlit
      exact (Bool.and_eq_true _ _ ▸ hlit).1
    simpa using this
  obtain ⟨h1, h2⟩ := takeWhile_append_stop isNumChar lit rest hall hr
  simp [parseNumber, h1, h2, hlit]

/-- Setting a property that the object does not have appends it. -/
theorem objSet_of_not_mem (acc : List (String × JSVal)) (k : String) (v : JSVal)
    (h : ∀ kv ∈ acc, kv.1 ≠ k) : objSet acc k v = acc ++ [(k, v)] := by
  induction acc with
  | nil => rfl
  | cons a t ih =>
    obtain ⟨k', v'⟩ := a
    have hk : k' ≠ k := h (k', v') (List.mem_cons_self _ _)
    simp only [objSet, hk, if_false, List.cons_append]
    rw [ih (fun kv hkv => h kv (List.mem_cons_of_mem _ hkv))]

/-- Members with pairwise distinct names, none of them in the object yet, are appended in order. -/
theorem foldl_objSet (ms acc : List (String × JSVal))
    (hacc : ∀ kv ∈ ms, ∀ kv' ∈ acc, kv'.1 ≠ kv.1)
    (hms : ms.Pairwise (fun a b => a.1 ≠ b.1)) :
    ms.foldl (fun acc kv => objSet acc kv.1 kv.2) acc = acc ++ ms := by
  induction ms generalizing acc with
  | nil => simp
  | cons m t ih =>
    rw [List.pairwise_cons] at hms
    simp only [List.foldl_cons]
    rw [objSet_of_not_mem acc m.1 m.2 (fun kv hkv => hacc m (List.mem_cons_self _ _) kv hkv)]
    rw [ih]
    · simp
    · intro kv hkv kv' hkv'
      rcases List.mem_append.1 hkv' with h | h
      · exact hacc kv (List.mem_cons_of_mem _ hkv) kv' h
      · have : kv' = m := by simpa using h
        subst this
        exact hms.1 kv hkv
    · exact hms.2

/-- Members with pairwise distinct names make up the object as they stand. -/
theorem mkObject_of_distinct (ms : List (String × JSVal))
    (hms : ms.Pairwise (fun a b => a.1 ≠ b.1)) : mkObject ms = ms := by
  unfold mkObject
  rw [foldl_objSet ms [] (fun _ _ _ h => absurd h (List.not_mem_nil _)) hms]
  simp

/-- The property names of a JSON object are pairwise distinct. -/
theorem fieldsJSON_pairwise (kvs : List (String × JSVal)) (h : JSVal.fieldsJSON kvs = true) :
    kvs.Pairwise (fun a b => a.1 ≠ b.1) := by
  induction kvs with
  | nil => exact List.Pairwise.nil
  | cons a t ih =>
    obtain ⟨k, v⟩ := a
    simp only [JSVal.fieldsJSON, Bool.and_eq_true, Bool.not_eq_true', List.any_eq_false,
      beq_iff_eq] at h
    refine List.Pairwise.cons ?_ (ih h.2)
    intro b hb heq
    exact h.1.1 b hb heq.symm

/-- The codes of the number characters. -/
theorem isNumChar_toNat (c : Char) (h : isNumChar c = true) :
    (48 ≤ c.toNat ∧ c.toNat ≤ 57) ∨ c.toNat = 45 ∨ c.toNat = 43 ∨ c.toNat = 46 ∨
      c.toNat = 101 ∨ c.toNat = 69 := by
  simp only [isNumChar, Bool.or_eq_true, decide_eq_true_eq] at h
  rcases h with ((((h | h) | h) | h) | h) | h
  · left
    simp only [Char.isDigit, Bool.and_eq_true, decide_eq_true_eq] at h
    exact ⟨h.1, h.2⟩
  · subst h; decide
  · subst h; decide
  · subst h; decide
  · subst h; decide
  · subst h; decide

/-- Characters with different codes are different. -/
theorem ne_of_toNat_ne {c d : Char} (h : c.toNat ≠ d.toNat) : c ≠ d :=
  fun e => h (congrArg Char.toNat e)

/-- A number character is not whitespace. -/
theorem isWs_of_isNumChar (c : Char) (h : isNumChar c = true) : isWs c = false := by
  have := isNumChar_toNat c h
  simp only [isWs, Bool.or_eq_false_iff, decide_eq_false_iff_not]
  omega

/-- A number literal is not empty and starts with a number character. -/
theorem isNumberLiteral_cons (l : List Char) (h : isNumberLiteral l = true) :
    ∃ c t, l = c :: t ∧ isNumChar c = true := by
  cases l with
  | nil => simp [isNumberLiteral] at h
  | cons c t =>
    refine ⟨c, t, rfl, ?_⟩
    simp only [isNumberLiteral, Bool.and_eq_true, List.all_cons] at h
    exact h.1.1

/-- The parser reads a number literal, after whitespace, as that number. -/
theorem parseValue_number (fuel : Nat) (ws lit rest : List Char)
    (hws : ∀ d ∈ ws, isWs d = true) (hlit : isNumberLiteral lit = true)
    (hr : ∀ c, rest.head? = some c → isNumChar c = false) :
    parseValue (fuel + 1) (ws ++ (lit ++ rest)) = some (.num (.finite (String.mk lit)), rest) := by
  obtain ⟨c, t, hl, hc⟩ := isNumberLiteral_cons lit hlit
  have hn := isNumChar_toNat c hc
  have e1 : c ≠ 'n' := ne_of_toNat_ne (by simp; omega)
  have e2 : c ≠ 't' := ne_of_toNat_ne (by simp; omega)
  have e3 : c ≠ 'f' := ne_of_toNat_ne (by simp; omega)
  have e4 : c ≠ '[' := ne_of_toNat_ne (by simp; omega)
  have e5 : c.toNat ≠ 34 := by omega
  have e6 : c.toNat ≠ 123 := by omega
  have hp := parseNumber_literal lit rest hlit hr
  subst hl
  rw [parseValue]
  simp only [List.cons_append] at hp ⊢
  rw [skipWs_append ws c _ hws (isWs_of_isNumChar c hc)]
  simp only [e1, e2, e3, e4, e5, e6, if_false, hc, if_true]
  exact hp

/-- The serialization of a JSON value starts with a character that is neither whitespace nor a
closing bracket or brace. -/
theorem serialize_head (indent : List Char) (v : JSVal) (hj : v.isJSON = true) :
    ∃ c t, serializeJSONProperty indent v = c :: t ∧ isWs c = false ∧ c ≠ ']' ∧
      c.toNat ≠ 125 := by
  cases v with
  | null => exact ⟨_, _, rfl, by decide, by decide, by decide⟩
  | bool b => cases b <;> exact ⟨_, _, rfl, by decide, by decide, by decide⟩
  | num n =>
    cases n with
    | finite lit =>
      simp only [JSVal.isJSON] at hj
      obtain ⟨c, t, hl, hc⟩ := isNumberLiteral_cons lit.data hj
      have hn := isNumChar_toNat c hc
      exact ⟨c, t, by simp [serializeJSONProperty, hl], isWs_of_isNumChar c hc,
        ne_of_toNat_ne (by simp; omega), by omega⟩
    | inf neg => simp [JSVal.isJSON] at hj
  | str s => exact ⟨_, _, rfl, by decide, by decide, by decide⟩
  | arr xs =>
    cases xs with
    | nil => exact ⟨_, _, rfl, by decide, by decide, by decide⟩
    | cons x xs =>
      exact ⟨'[', _, by simp [serializeJSONProperty, serializeJSONArray, wrapParts]; rfl,
        by decide, by decide, by decide⟩
  | obj kvs =>
    cases kvs with
    | nil => exact ⟨_, _, rfl, by decide, by decide, by decide⟩
    | cons kv kvs =>
      obtain ⟨k, w⟩ := kv
      exact ⟨Char.ofNat 123, _,
        by simp [serializeJSONProperty, serializeJSONObject, wrapParts]; rfl,
        by decide, by decide, by decide⟩

/-- The array case of `parseValue`, once the elements are read. -/
theorem parseValue_array (f : Nat) (ws R r rest : List Char) (d : Char) (xs : List JSVal)
    (hws : ∀ e ∈ ws, isWs e = true) (hskip : skipWs R = d :: r) (hd : d ≠ ']')
    (hel : parseElements f R = some (xs, rest)) :
    parseValue (f + 1) (ws ++ '[' :: R) = some (.arr xs, rest) := by
  rw [parseValue, skipWs_append ws _ _ hws (by decide)]
  simp [hskip, hd, hel]

/-- The object case of `parseValue`, once the members are read. -/
theorem parseValue_object (f : Nat) (ws R r rest : List Char) (d : Char)
    (ms : List (String × JSVal)) (hws : ∀ e ∈ ws, isWs e = true) (hskip : skipWs R = d :: r)
    (hd : d.toNat ≠ 125) (hel : parseMembers f R = some (ms, rest)) :
    parseValue (f + 1) (ws ++ Char.ofNat 123 :: R) = some (.obj (mkObject ms), rest) := by
  rw [parseValue, skipWs_append ws _ _ hws (by decide)]
  simp [hskip, hd, hel]

/-- The last element of an array: a value followed by the closing bracket. -/
theorem parseElements_last (f : Nat) (input rest r : List Char) (v : JSVal)
    (hv : parseValue f input = some (v, rest)) (hskip : skipWs rest = ']' :: r) :
    parseElements (f + 1) input = some ([v], r) := by
  rw [parseElements]
  simp [hv, hskip]

/-- An element of an array that is followed by a comma and further elements. -/
theorem parseElements_more (f : Nat) (input rest r r' : List Char) (v : JSVal)
    (xs : List JSVal) (hv : parseValue f input = some (v, rest))
    (hskip : skipWs rest = ',' :: r') (hrest : parseElements f r' = some (xs, r)) :
    parseElements (f + 1) input = some (v :: xs, r) := by
  rw [parseElements]
  simp [hv, hskip, hrest]

/-- The last member of an object: a key, a colon, a value and the closing brace. -/
theorem parseMembers_last (f : Nat) (input afterQuote k afterKey afterColon rest r : List Char)
    (v : JSVal) (hq : skipWs input = Char.ofNat 34 :: afterQuote)
    (hk : parseStringBody afterQuote = some (k, afterKey))
    (hcolon : skipWs afterKey = ':' :: afterColon)
    (hv : parseValue f afterColon = some (v, rest))
    (hskip : skipWs rest = Char.ofNat 125 :: r) :
    parseMembers (f + 1) input = some ([(String.mk k, v)], r) := by
  rw [parseMembers]
  simp [hq, hk, hcolon, hv, hskip]

/-- A member of an object that is followed by a comma and further members. -/
theorem parseMembers_more (f : Nat)
    (input afterQuote k afterKey afterColon rest r r' : List Char)
    (v : JSVal) (ms : List (String × JSVal)) (hq : skipWs input = Char.ofNat 34 :: afterQuote)
    (hk : parseStringBody afterQuote = some (k, afterKey))
    (hcolon : skipWs afterKey = ':' :: afterColon)
    (hv : parseValue f afterColon = some (v, rest))
    (hskip : skipWs rest = ',' :: r') (hrest : parseMembers f r' = some (ms, r)) :
    parseMembers (f + 1) input = some ((String.mk k, v) :: ms, r) := by
  rw [parseMembers]
  simp [hq, hk, hcolon, hv, hskip, hrest]

mutual
/-- The parser reads the serialization of a JSON value, at any indentation and after any
whitespace, back as that value and leaves what follows, given fuel for the size of the
value. -/
theorem parseValue_serialize : (v : JSVal) → v.isJSON = true →
    ∀ (fuel : Nat) (ws indent rest : List Char), v.size ≤ fuel →
      (∀ d ∈ ws, isWs d = true) → (∀ d ∈ indent, isWs d = true) →
      (∀ c, rest.head? = some c → isNumChar c = false) →
      parseValue fuel (ws ++ (serializeJSONProperty indent v ++ rest)) = some (v, rest)
  | .null, _, fuel, ws, indent, rest, hf, hws, _, _ => by
    cases fuel with
    | zero => simp [JSVal.size] at hf
    | succ f =>
      rw [parseValue]
      simp only [serializeJSONProperty, List.cons_append, List.nil_append]
      rw [skipWs_append ws _ _ hws (by decide)]
      simp [parseKeyword]
  | .bool true, _, fuel, ws, indent, rest, hf, hws, _, _ => by
    cases fuel with
    | zero => simp [JSVal.size] at hf
    | succ f =>
      rw [parseValue]
      simp only [serializeJSONProperty, List.cons_append, List.nil_append]
      rw [skipWs_append ws _ _ hws (by decide)]
      simp [parseKeyword]
  | .bool false, _, fuel, ws, indent, rest, hf, hws, _, _ => by
    cases fuel with
    | zero => simp [JSVal.size] at hf
    | succ f =>
      rw [parseValue]
      simp only [serializeJSONProperty, List.cons_append, List.nil_append]
      rw [skipWs_append ws _ _ hws (by decide)]
      simp [parseKeyword]
  | .num (.finite lit), hj, fuel, ws, indent, rest, hf, hws, _, hr => by
    cases fuel with
    | zero => simp [JSVal.size] at hf
    | succ f =>
      simp only [JSVal.isJSON] at hj
      simp only [serializeJSONProperty]
      exact parseValue_number f ws lit.data rest hws hj hr
  | .num (.inf _), hj, _, _, _, _, _, _, _, _ => by
    simp [JSVal.isJSON] at hj
  | .str s, _, fuel, ws, indent, rest, hf, hws, _, _ => by
    cases fuel with
    | zero => simp [JSVal.size] at hf
    | succ f =>
      rw [parseValue]
      simp only [serializeJSONProperty, quoteJSONString, List.cons_append, List.append_assoc,
        List.nil_append]
      rw [skipWs_append ws _ _ hws (by decide)]
      simp [parseStringBody_quoteChars]
  | .arr [], _, fuel, ws, indent, rest, hf, hws, _, _ => by
    cases fuel with
    | zero => simp [JSVal.size] at hf
    | succ f =>
      rw [parseValue]
      simp only [serializeJSONProperty, serializeJSONArray, wrapParts, List.cons_append,
        List.nil_append]
      rw [skipWs_append ws _ _ hws (by decide)]
      simp [skipWs, isWs]
  | .arr (x :: xs), hj, fuel, ws, indent, rest, hf, hws, hind, _ => by
    cases fuel with
    | zero => simp [JSVal.size] at hf
    | succ f =>
      have hgap : ∀ d ∈ indent ++ gap, isWs d = true := by
        intro d hd
        rcases List.mem_append.1 hd with h | h
        · exact hind d h
        · simp only [gap, List.mem_cons, List.mem_singleton, List.not_mem_nil, or_false,
            or_self] at h
          subst h; decide
      have hnl : ∀ d ∈ Char.ofNat 10 :: (indent ++ gap), isWs d = true := by
        intro d hd
        rcases List.mem_cons.1 hd with h | h
        · subst h; decide
        · exact hgap d h
      simp only [JSVal.isJSON] at hj
      have hjx : x.isJSON = true := by
        simp only [JSVal.allJSON, Bool.and_eq_true] at hj
        exact hj.1
      have ih := parseElements_serialize (x :: xs) (List.cons_ne_nil _ _) hj f
        (Char.ofNat 10 :: (indent ++ gap)) (indent ++ gap) indent rest
        (by simp only [JSVal.size] at hf; omega) hnl hgap hind
      obtain ⟨c, t, hc, hcws, hc1, _⟩ := serialize_head (indent ++ gap) x hjx
      obtain ⟨more, hmore⟩ : ∃ more, joinWith (',' :: Char.ofNat 10 :: (indent ++ gap))
          (serializeJSONArray (indent ++ gap) (x :: xs)) = c :: more := by
        cases xs with
        | nil => exact ⟨t, by simp [serializeJSONArray, joinWith, hc]⟩
        | cons y ys => exact ⟨_, by simp [serializeJSONArray, joinWith, hc]; rfl⟩
      have e : ws ++ (serializeJSONProperty indent (.arr (x :: xs)) ++ rest) =
          ws ++ '[' :: (Char.ofNat 10 :: (indent ++ gap) ++
            (joinWith (',' :: Char.ofNat 10 :: (indent ++ gap))
                (serializeJSONArray (indent ++ gap) (x :: xs))
              ++ (Char.ofNat 10 :: (indent ++ ']' :: rest)))) := by
        simp [serializeJSONProperty, serializeJSONArray, wrapParts]
      have hskip : skipWs (Char.ofNat 10 :: (indent ++ gap) ++
            (joinWith (',' :: Char.ofNat 10 :: (indent ++ gap))
                (serializeJSONArray (indent ++ gap) (x :: xs))
              ++ (Char.ofNat 10 :: (indent ++ ']' :: rest)))) =
          c :: (more ++ (Char.ofNat 10 :: (indent ++ ']' :: rest))) := by
        rw [hmore]
        exact skipWs_append _ c _ hnl hcws
      rw [e]
      exact parseValue_array f ws _ _ rest c (x :: xs) hws hskip hc1 ih
  | .obj [], _, fuel, ws, indent, rest, hf, hws, _, _ => by
    cases fuel with
    | zero => simp [JSVal.size] at hf
    | succ f =>
      rw [parseValue]
      simp only [serializeJSONProperty, serializeJSONObject, wrapParts, List.cons_append,
        List.nil_append]
      rw [skipWs_append ws _ _ hws (by decide)]
      simp [skipWs, isWs]
  | .obj (kv :: kvs), hj, fuel, ws, indent, rest, hf, hws, hind, _ => by
    cases fuel with
    | zero => simp [JSVal.size] at hf
    | succ f =>
      have hgap : ∀ d ∈ indent ++ gap, isWs d = true := by
        intro d hd
        rcases List.mem_append.1 hd with h | h
        · exact hind d h
        · simp only [gap, List.mem_cons, List.mem_singleton, List.not_mem_nil, or_false,
            or_self] at h
          subst h; decide
      have hnl : ∀ d ∈ Char.ofNat 10 :: (indent ++ gap), isWs d = true := by
        intro d hd
        rcases List.mem_cons.1 hd with h | h
        · subst h; decide
        · exact hgap d h
      simp only [JSVal.isJSON] at hj
      have ih := parseMembers_serialize (kv :: kvs) (List.cons_ne_nil _ _) hj f
        (Char.ofNat 10 :: (indent ++ gap)) (indent ++ gap) indent rest
        (by simp only [JSVal.size] at hf; omega) hnl hgap hind
      obtain ⟨more, hmore⟩ : ∃ more, joinWith (',' :: Char.ofNat 10 :: (indent ++ gap))
          (serializeJSONObject (indent ++ gap) (kv :: kvs)) = Char.ofNat 34 :: more := by
        obtain ⟨k, w⟩ := kv
        cases kvs with
        | nil => exact ⟨_, by simp [serializeJSONObject, joinWith, quoteJSONString]; rfl⟩
        | cons y ys => exact ⟨_, by simp [serializeJSONObject, joinWith, quoteJSONString]; rfl⟩
      have e : ws ++ (serializeJSONProperty indent (.obj (kv :: kvs)) ++ rest) =
          ws ++ Char.ofNat 123 :: (Char.ofNat 10 :: (indent ++ gap) ++
            (joinWith (',' :: Char.ofNat 10 :: (indent ++ gap))
                (serializeJSONObject (indent ++ gap) (kv :: kvs))
              ++ (Char.ofNat 10 :: (indent ++ Char.ofNat 125 :: rest)))) := by
        obtain ⟨k, w⟩ := kv
        simp [serializeJSONProperty, serializeJSONObject, wrapParts]
      have hskip : skipWs (Char.ofNat 10 :: (indent ++ gap) ++
            (joinWith (',' :: Char.ofNat 10 :: (indent ++ gap))
                (serializeJSONObject (indent ++ gap) (kv :: kvs))
              ++ (Char.ofNat 10 :: (indent ++ Char.ofNat 125 :: rest)))) =
          Char.ofNat 34 :: (more ++ (Char.ofNat 10 :: (indent ++ Char.ofNat 125 :: rest))) := by
        rw [hmore]
        exact skipWs_append _ _ _ hnl (by decide)
      rw [e]
      have := parseValue_object f ws _ _ rest _ (kv :: kvs) hws hskip (by decide) ih
      rw [mkObject_of_distinct _ (fieldsJSON_pairwise _ hj)] at this
      exact this
/-- The same for the elements of a non-empty array, one per line, up to the closing
bracket. -/
theorem parseElements_serialize : (xs : List JSVal) → xs ≠ [] → JSVal.allJSON xs = true →
    ∀ (fuel : Nat) (ws indent stepback rest : List Char), JSVal.sizeList xs ≤ fuel →
      (∀ d ∈ ws, isWs d = true) → (∀ d ∈ indent, isWs d = true) →
      (∀ d ∈ stepback, isWs d = true) →
      parseElements fuel
          (ws ++ (joinWith (',' :: Char.ofNat 10 :: indent) (serializeJSONArray indent xs)
            ++ (Char.ofNat 10 :: (stepback ++ ']' :: rest))))
        = some (xs, rest)
  | [], hne, _, _, _, _, _, _, _, _, _, _ => absurd rfl hne
  | x :: xs, _, hj, fuel, ws, indent, stepback, rest, hf, hws, hind, hstep => by
    cases fuel with
    | zero => simp [JSVal.sizeList] at hf
    | succ f =>
      simp only [JSVal.allJSON, Bool.and_eq_true] at hj
      simp only [JSVal.sizeList] at hf
      have ihl := parseElements_serialize xs
      cases xs with
      | nil =>
        have hv := parseValue_serialize x hj.1 f ws indent
          (Char.ofNat 10 :: (stepback ++ ']' :: rest)) (by omega) hws hind
          (by intro c hc; simp at hc; subst hc; decide)
        have hskip : skipWs (Char.ofNat 10 :: (stepback ++ ']' :: rest)) = ']' :: rest :=
          skipWs_append (Char.ofNat 10 :: stepback) ']' rest
            (by
              intro d hd
              rcases List.mem_cons.1 hd with h | h
              · subst h; decide
              · exact hstep d h)
            (by decide)
        exact parseElements_last f _ _ rest x hv hskip
      | cons y ys =>
        have hv := parseValue_serialize x hj.1 f ws indent
          (',' :: (Char.ofNat 10 :: indent ++
            (joinWith (',' :: Char.ofNat 10 :: indent) (serializeJSONArray indent (y :: ys))
              ++ (Char.ofNat 10 :: (stepback ++ ']' :: rest)))))
          (by omega) hws hind (by intro c hc; simp at hc; subst hc; decide)
        have hrest := ihl (List.cons_ne_nil _ _) hj.2 f (Char.ofNat 10 :: indent) indent
          stepback rest (by omega)
          (by
            intro d hd
            rcases List.mem_cons.1 hd with h | h
            · subst h; decide
            · exact hind d h)
          hind hstep
        have e : ws ++ (joinWith (',' :: Char.ofNat 10 :: indent)
              (serializeJSONArray indent (x :: y :: ys))
            ++ (Char.ofNat 10 :: (stepback ++ ']' :: rest))) =
            ws ++ (serializeJSONProperty indent x ++
              (',' :: (Char.ofNat 10 :: indent ++
                (joinWith (',' :: Char.ofNat 10 :: indent)
                    (serializeJSONArray indent (y :: ys))
                  ++ (Char.ofNat 10 :: (stepback ++ ']' :: rest)))))) := by
          simp [serializeJSONArray, joinWith]
        rw [e]
        exact parseElements_more f _ _ rest _ x (y :: ys) hv (by simp [skipWs, isWs]) hrest
/-- The same for the members of a non-empty object, one per line, up to the closing
brace. -/
theorem parseMembers_serialize : (kvs : List (String × JSVal)) → kvs ≠ [] →
    JSVal.fieldsJSON kvs = true →
    ∀ (fuel : Nat) (ws indent stepback rest : List Char), JSVal.sizeFields kvs ≤ fuel →
      (∀ d ∈ ws, isWs d = true) → (∀ d ∈ indent, isWs d = true) →
      (∀ d ∈ stepback, isWs d = true) →
      parseMembers fuel
          (ws ++ (joinWith (',' :: Char.ofNat 10 :: indent) (serializeJSONObject indent kvs)
            ++ (Char.ofNat 10 :: (stepback ++ Char.ofNat 125 :: rest))))
        = some (kvs, rest)
  | [], hne, _, _, _, _, _, _, _, _, _, _ => absurd rfl hne
  | (k, v) :: kvs, _, hj, fuel, ws, indent, stepback, rest, hf, hws, hind, hstep => by
    cases fuel with
    | zero => simp [JSVal.sizeFields] at hf
    | succ f =>
      simp only [JSVal.fieldsJSON, Bool.and_eq_true] at hj
      simp only [JSVal.sizeFields] at hf
      have ihl := parseMembers_serialize kvs
      have hsp : ∀ d ∈ [' '], isWs d = true := by
        intro d hd
        simp only [List.mem_singleton] at hd
        subst hd; decide
      cases kvs with
      | nil =>
        have hv := parseValue_serialize v hj.1.2 f [' '] indent
          (Char.ofNat 10 :: (stepback ++ Char.ofNat 125 :: rest)) (by omega) hsp hind
          (by intro c hc; simp at hc; subst hc; decide)
        have hskip : skipWs (Char.ofNat 10 :: (stepback ++ Char.ofNat 125 :: rest))
            = Char.ofNat 125 :: rest :=
          skipWs_append (Char.ofNat 10 :: stepback) (Char.ofNat 125) rest
            (by
              intro d hd
              rcases List.mem_cons.1 hd with h | h
              · subst h; decide
              · exact hstep d h)
            (by decide)
        have e : ws ++ (joinWith (',' :: Char.ofNat 10 :: indent)
              (serializeJSONObject indent [(k, v)])
            ++ (Char.ofNat 10 :: (stepback ++ Char.ofNat 125 :: rest))) =
            ws ++ Char.ofNat 34 :: (quoteChars k.data ++ Char.ofNat 34 :: (':' :: ([' '] ++
              (serializeJSONProperty indent v ++
                (Char.ofNat 10 :: (stepback ++ Char.ofNat 125 :: rest)))))) := by
          simp [serializeJSONObject, joinWith, quoteJSONString]
        rw [e]
        exact parseMembers_last f _ _ k.data _ _ _ rest v
          (skipWs_append ws _ _ hws (by decide)) (parseStringBody_quoteChars _ _)
          (by simp [skipWs, isWs]) hv hskip
      | cons m ms =>
        have hv := parseValue_serialize v hj.1.2 f [' '] indent
          (',' :: (Char.ofNat 10 :: indent ++
            (joinWith (',' :: Char.ofNat 10 :: indent) (serializeJSONObject indent (m :: ms))
              ++ (Char.ofNat 10 :: (stepback ++ Char.ofNat 125 :: rest)))))
          (by omega) hsp hind (by intro c hc; simp at hc; subst hc; decide)
        have hrest := ihl (List.cons_ne_nil _ _) hj.2 f (Char.ofNat 10 :: indent) indent
          stepback rest (by omega)
          (by
            intro d hd
            rcases List.mem_cons.1 hd with h | h
            · subst h; decide
            · exact hind d h)
          hind hstep
        have e : ws ++ (joinWith (',' :: Char.ofNat 10 :: indent)
              (serializeJSONObject indent ((k, v) :: m :: ms))
            ++ (Char.ofNat 10 :: (stepback ++ Char.ofNat 125 :: rest))) =
            ws ++ Char.ofNat 34 :: (quoteChars k.data ++ Char.ofNat 34 :: (':' :: ([' '] ++
              (serializeJSONProperty indent v ++
                (',' :: (Char.ofNat 10 :: indent ++
                  (joinWith (',' :: Char.ofNat 10 :: indent)
                      (serializeJSONObject indent (m :: ms))
                    ++ (Char.ofNat 10 :: (stepback ++ Char.ofNat 125 :: rest))))))))) := by
          simp [serializeJSONObject, joinWith, quoteJSONString]
        rw [e]
        exact parseMembers_more f _ _ k.data _ _ _ rest _ v (m :: ms)
          (skipWs_append ws _ _ hws (by decide)) (parseStringBody_quoteChars _ _)
          (by simp [skipWs, isWs]) hv (by simp [skipWs, isWs]) hrest
end

mutual
/-- The serialization of a JSON value has at least as many characters as the value has
size, so the length of a text is enough fuel to parse it. -/
theorem size_le_length : (v : JSVal) → v.isJSON = true → ∀ (indent : List Char),
    v.size ≤ (serializeJSONProperty indent v).length
  | .null, _, _ => by simp [JSVal.size, serializeJSONProperty]
  | .bool true, _, _ => by simp [JSVal.size, serializeJSONProperty]
  | .bool false, _, _ => by simp [JSVal.size, serializeJSONProperty]
  | .num (.finite lit), hj, _ => by
    simp only [JSVal.isJSON] at hj
    obtain ⟨c, t, hl, _⟩ := isNumberLiteral_cons lit.data hj
    simp [JSVal.size, serializeJSONProperty, hl]
  | .num (.inf _), hj, _ => by simp [JSVal.isJSON] at hj
  | .str s, _, _ => by simp [JSVal.size, serializeJSONProperty, quoteJSONString]
  | .arr [], _, _ => by simp [JSVal.size, JSVal.sizeList, serializeJSONProperty, wrapParts,
      serializeJSONArray]
  | .arr (x :: xs), hj, indent => by
    simp only [JSVal.isJSON] at hj
    have := sizeList_le_length (x :: xs) hj (indent ++ gap)
    simp only [JSVal.size, serializeJSONProperty, serializeJSONArray, wrapParts,
      List.cons_append, List.nil_append, List.length_append, List.length_cons,
      List.length_nil] at this ⊢
    omega
  | .obj [], _, _ => by simp [JSVal.size, JSVal.sizeFields, serializeJSONProperty, wrapParts,
      serializeJSONObject]
  | .obj ((k, v) :: kvs), hj, indent => by
    simp only [JSVal.isJSON] at hj
    have := sizeFields_le_length ((k, v) :: kvs) hj (indent ++ gap)
    simp only [JSVal.size, serializeJSONProperty, serializeJSONObject, wrapParts,
      List.cons_append, List.nil_append, List.length_append, List.length_cons,
      List.length_nil] at this ⊢
    omega
/-- The same bound for the elements of an array. -/
theorem sizeList_le_length : (xs : List JSVal) → JSVal.allJSON xs = true →
    ∀ (indent : List Char), JSVal.sizeList xs ≤
      (joinWith (',' :: Char.ofNat 10 :: indent) (serializeJSONArray indent xs)).length + 1
  | [], _, _ => by simp [JSVal.sizeList]
  | x :: xs, hj, indent => by
    simp only [JSVal.allJSON, Bool.and_eq_true] at hj
    have h1 := size_le_length x hj.1 indent
    have h2 := sizeList_le_length xs hj.2 indent
    cases xs with
    | nil => simp [JSVal.sizeList, serializeJSONArray, joinWith]; omega
    | cons y ys =>
      simp only [JSVal.sizeList, serializeJSONArray, joinWith, List.length_append,
        List.length_cons] at h2 ⊢
      omega
/-- The same bound for the members of an object. -/
theorem sizeFields_le_length : (kvs : List (String × JSVal)) → JSVal.fieldsJSON kvs = true →
    ∀ (indent : List Char), JSVal.sizeFields kvs ≤
      (joinWith (',' :: Char.ofNat 10 :: indent) (serializeJSONObject indent kvs)).length + 1
  | [], _, _ => by simp [JSVal.sizeFields]
  | (k, v) :: kvs, hj, indent => by
    simp only [JSVal.fieldsJSON, Bool.and_eq_true] at hj
    have h1 := size_le_length v hj.1.2 indent
    have h2 := sizeFields_le_length kvs hj.2 indent
    cases kvs with
    | nil =>
      simp only [JSVal.sizeFields, serializeJSONObject, joinWith, List.length_append,
        List.length_cons, List.length_nil]
      omega
    | cons y ys =>
      obtain ⟨k', w⟩ := y
      simp only [JSVal.sizeFields, serializeJSONObject, joinWith, List.length_append,
        List.length_cons] at h2 ⊢
      omega
end

/-- Parsing the text `JSON.stringify(v, null, 2)` of a JSON value gives the value back. -/
theorem parse_stringify (v : JSVal) (hj : v.isJSON = true) :
    JSON.parse (String.mk (serializeJSONProperty [] v)) = some v := by
  have h := parseValue_serialize v hj ((serializeJSONProperty [] v).length + 1) [] [] []
    (by have := size_le_length v hj []; omega) (by simp) (by simp) (by simp)
  simp only [List.nil_append, List.append_nil] at h
  simp [JSON.parse, h, skipWs]


/-! ## Properties of the handlers -/

/-- C1: a call-tool request that names any tool other than `analyze_code_with_coai`,
whatever its arguments (absent ones included), makes the handler throw the error
`Tool not found`: no result object is returned (so none with `isError` true) and no POST
is issued. -/
theorem callTool_unknown_name_throws (env : Env) (remote : PostRequest → PostOutcome)
    (params : CallToolParams) (h : params.name ≠ "analyze_code_with_coai") :
    (callToolHandler env remote params).posts = [] ∧
      (∃ e, (callToolHandler env remote params).outcome = .error e ∧
        e.name = "Error" ∧ e.message = "Tool not found") ∧
      ∀ r, (callToolHandler env remote params).outcome ≠ .ok r := by
  simp [callToolHandler, h]

theorem callTool_unknown_name_throws_witness :
    (⟨"analyze_code", none⟩ : CallToolParams).name ≠ "analyze_code_with_coai" ∧
      ((callToolHandler ⟨none, none, none⟩ (fun _ => .resolved ⟨200, .null⟩)
          ⟨"analyze_code", none⟩).posts = [] ∧
        (∃ e, (callToolHandler ⟨none, none, none⟩ (fun _ => .resolved ⟨200, .null⟩)
            ⟨"analyze_code", none⟩).outcome = .error e ∧
          e.name = "Error" ∧ e.message = "Tool not found") ∧
        ∀ r, (callToolHandler ⟨none, none, none⟩ (fun _ => .resolved ⟨200, .null⟩)
            ⟨"analyze_code", none⟩).outcome ≠ .ok r) :=
  ⟨by decide, callTool_unknown_name_throws _ _ _ (by decide)⟩

/-- C2: the registered tool called without an argument record. The destructuring
throws a `TypeError` before the `try` block is entered, so the handler throws instead of
returning a result, and sends nothing. The second part is a call with arguments whose
POST is rejected with the body `{"error": {"toString": null}}`: the template literal of
the `catch` block throws, and the handler throws after one POST. -/
theorem callTool_registered_can_throw :
    (∀ (env : Env) (remote : PostRequest → PostOutcome),
      (callToolHandler env remote ⟨"analyze_code_with_coai", none⟩).outcome
          = .error destructureError ∧
        (callToolHandler env remote ⟨"analyze_code_with_coai", none⟩).posts = []) ∧
    (∀ (env : Env) (args : List (String × JSVal)),
      (callToolHandler env
          (fun _ => .rejected
            { name := "AxiosError", message := "Request failed with status code 400"
              response := some ⟨400, .obj [("error", .obj [("toString", .null)])]⟩ })
          ⟨"analyze_code_with_coai", some args⟩).outcome = .error toPrimitiveError) := by
  constructor
  · intro env remote
    simp [callToolHandler]
  · intro env args
    rfl

/-- C3, as stated, fails: the POST is rejected with status 400 and the body
`{"error": ""}`. The `error` field is present, and the text is `Analysis Failed: `
followed by the message of the failure, not by the (empty) field. -/
theorem failure_text_empty_error_field :
    optGetProp (some (JSVal.obj [("error", .str "")])) "error" = some (.str "") ∧
    (callToolHandler ⟨none, none, none⟩
        (fun _ => .rejected
          { name := "AxiosError", message := "Request failed with status code 400"
            response := some ⟨400, .obj [("error", .str "")]⟩ })
        ⟨"analyze_code_with_coai", some [("code", .str "int x;")]⟩).outcome
      = .ok { content :=
                [⟨"text", some "Analysis Failed: Request failed with status code 400"⟩]
              isError := some true } ∧
    (callToolHandler ⟨none, none, none⟩
        (fun _ => .rejected
          { name := "AxiosError", message := "Request failed with status code 400"
            response := some ⟨400, .obj [("error", .str "")]⟩ })
        ⟨"analyze_code_with_coai", some [("code", .str "int x;")]⟩).outcome
      ≠ .ok { content := [⟨"text", some ("Analysis Failed: " ++ "")⟩]
              isError := some true } := by
  refine ⟨rfl, rfl, ?_⟩
  intro h
  have h2 : (Except.ok
      { content := [⟨"text", some "Analysis Failed: Request failed with status code 400"⟩]
        isError := some true } : Except JSError ToolCallResult)
      = .ok { content := [⟨"text", some ("Analysis Failed: " ++ "")⟩]
              isError := some true } := h
  injection h2 with h3
  revert h3
  decide

/-- C3, amended: when the POST of a call to the registered tool is rejected, the handler
returns `isError` true and exactly one text block, `Analysis Failed: ` followed by `msg`,
where `msg` is the string form of the `error` field of the response body of the failure
when that field is present and truthy (for a non-empty string, the string itself), and
the message of the failure when the field is absent or falsy. -/
theorem failure_text_prefers_truthy_error_field (env : Env)
    (remote : PostRequest → PostOutcome) (args : List (String × JSVal)) (err : JSError)
    (field : Option JSVal) (msg : String)
    (hrej : remote (outboundPost env args) = .rejected err)
    (hfield : optGetProp (err.response.map (fun r => r.data)) "error" = field)
    (hmsg : (∃ v, field = some v ∧ v.truthy = true ∧ v.toStr = .ok msg) ∨
      ((∀ v, field = some v → v.truthy = false) ∧ msg = err.message)) :
    (callToolHandler env remote ⟨"analyze_code_with_coai", some args⟩).outcome
      = .ok { content := [⟨"text", some ("Analysis Failed: " ++ msg)⟩]
              isError := some true } := by
  subst hfield
  simp only [callToolHandler, if_true, hrej, tryBlock, catchBlock]
  rcases hmsg with ⟨v, hv, ht, hs⟩ | ⟨hf, hm⟩
  · simp [jsOr, hv, ht, hs]
  · subst hm
    cases hopt : optGetProp (err.response.map (fun r => r.data)) "error" with
    | none => simp [jsOr, JSVal.toStr]
    | some v => simp [jsOr, hf v hopt, JSVal.toStr]

theorem failure_text_prefers_truthy_error_field_witness :
    (callToolHandler ⟨none, none, none⟩
        (fun _ => .rejected
          { name := "AxiosError", message := "Request failed with status code 400"
            response := some ⟨400, .obj [("error", .str "bad input")]⟩ })
        ⟨"analyze_code_with_coai", some [("code", .str "int x;")]⟩).outcome
      = .ok { content := [⟨"text", some ("Analysis Failed: " ++ "bad input")⟩]
              isError := some true } :=
  failure_text_prefers_truthy_error_field ⟨none, none, none⟩ _ [("code", .str "int x;")]
    { name := "AxiosError", message := "Request failed with status code 400"
      response := some ⟨400, .obj [("error", .str "bad input")]⟩ }
    (some (.str "bad input")) "bad input" rfl rfl
    (Or.inl ⟨.str "bad input", rfl, by decide, rfl⟩)

/-- C4, as stated, fails: the endpoint answers `{"result": "X"}` to a call with a
non-empty `code`. The returned object has the text `X` and no `isError` field; it is not
the object with `isError` false. -/
theorem success_result_has_no_isError :
    (callToolHandler ⟨none, none, none⟩
        (fun _ => .resolved ⟨200, .obj [("result", .str "X")]⟩)
        ⟨"analyze_code_with_coai", some [("code", .str "int x;")]⟩).outcome
      = .ok { content := [⟨"text", some "X"⟩], isError := none } ∧
    (callToolHandler ⟨none, none, none⟩
        (fun _ => .resolved ⟨200, .obj [("result", .str "X")]⟩)
        ⟨"analyze_code_with_coai", some [("code", .str "int x;")]⟩).outcome
      ≠ .ok { content := [⟨"text", some "X"⟩], isError := some false } := by
  refine ⟨rfl, ?_⟩
  intro h
  have h2 : (Except.ok { content := [⟨"text", some "X"⟩], isError := none } :
      Except JSError ToolCallResult)
      = .ok { content := [⟨"text", some "X"⟩], isError := some false } := h
  injection h2 with h3
  revert h3
  decide

/-- C4, amended: for a call to the registered tool whose `code` argument is a non-empty
string, if the endpoint answers successfully with a body whose `result` is the string
`X`, the handler returns exactly one text block with the text `X` verbatim, in an object
that has no `isError` field. -/
theorem success_string_result_verbatim (env : Env) (remote : PostRequest → PostOutcome)
    (args : List (String × JSVal)) (c X : String) (status : Nat)
    (body : List (String × JSVal))
    (_hcode : args.lookup "code" = some (.str c)) (_hne : c ≠ "")
    (hres : remote (outboundPost env args) = .resolved ⟨status, .obj body⟩)
    (hX : body.lookup "result" = some (.str X)) :
    (callToolHandler env remote ⟨"analyze_code_with_coai", some args⟩).outcome
      = .ok { content := [⟨"text", some X⟩], isError := none } := by
  simp [callToolHandler, hres, tryBlock, JSVal.getProp, hX]

theorem success_string_result_verbatim_witness :
    (callToolHandler ⟨none, none, none⟩
        (fun _ => .resolved ⟨200, .obj [("result", .str "X")]⟩)
        ⟨"analyze_code_with_coai", some [("code", .str "int x;")]⟩).outcome
      = .ok { content := [⟨"text", some "X"⟩], isError := none } :=
  success_string_result_verbatim ⟨none, none, none⟩ _ [("code", .str "int x;")] "int x;" "X"
    200 [("result", .str "X")] rfl (by decide) rfl rfl

/-- C5: two configured URLs whose hostname is neither `localhost` nor `127.0.0.1`: one
has `localhost` in its query, the other as the first label of a longer hostname. For both
the start-up code computes `isLocal` true, so `rejectUnauthorized` is false and
certificate validation is off. -/
theorem trust_flag_matches_substring :
    hostnameOf "https://api.co-ai.run/api/mcp/analyze?from=localhost" = "api.co-ai.run" ∧
    rejectUnauthorized
      ⟨some "https://api.co-ai.run/api/mcp/analyze?from=localhost", none, none⟩ = false ∧
    hostnameOf "https://localhost.example.com/api/mcp/analyze" = "localhost.example.com" ∧
    rejectUnauthorized
      ⟨some "https://localhost.example.com/api/mcp/analyze", none, none⟩ = false := by
  refine ⟨by decide, by decide, by decide, by decide⟩

/-- C6: every POST a call to the registered tool issues carries the user id of the
configuration, whatever the arguments (absent ones included) and whatever the endpoint
does; two calls with arbitrary argument records, for instance records with a `userId`
field of their own, each send exactly one POST, and both carry that same user id. -/
theorem outbound_userId_from_configuration (env : Env)
    (remote₁ remote₂ : PostRequest → PostOutcome) (arguments : Option (List (String × JSVal)))
    (args₁ args₂ : List (String × JSVal)) :
    (∀ q ∈ (callToolHandler env remote₁ ⟨"analyze_code_with_coai", arguments⟩).posts,
        q.body.userId = USER_ID env) ∧
      (callToolHandler env remote₁ ⟨"analyze_code_with_coai", some args₁⟩).posts.map
          (fun q => q.body.userId) = [USER_ID env] ∧
      (callToolHandler env remote₂ ⟨"analyze_code_with_coai", some args₂⟩).posts.map
          (fun q => q.body.userId) = [USER_ID env] := by
  refine ⟨?_, ?_, ?_⟩
  · cases arguments <;> simp [callToolHandler, outboundPost]
  · simp [callToolHandler, outboundPost]
  · simp [callToolHandler, outboundPost]

/-- C7: when the argument record of a call to the registered tool has no `language`,
the handler issues exactly one POST, whose body has `language` equal to `"java"` and
whose `code` is the `code` of the caller as given (`undefined` when there is none, the
empty string when it is empty). -/
theorem outbound_language_defaults_to_java (env : Env) (remote : PostRequest → PostOutcome)
    (args : List (String × JSVal)) (h : args.lookup "language" = none) :
    ∃ q, (callToolHandler env remote ⟨"analyze_code_with_coai", some args⟩).posts = [q] ∧
      q.body.language = .str "java" ∧ q.body.code = args.lookup "code" := by
  refine ⟨outboundPost env args, ?_, ?_, ?_⟩
  · simp [callToolHandler]
  · simp [outboundPost, h, jsOr]
  · simp [outboundPost]

theorem outbound_language_defaults_to_java_witness :
    ∃ q, (callToolHandler ⟨none, none, none⟩ (fun _ => .resolved ⟨200, .null⟩)
        ⟨"analyze_code_with_coai", some [("code", .str "")]⟩).posts = [q] ∧
      q.body.language = .str "java" ∧
      q.body.code = List.lookup "code" [("code", JSVal.str "")] :=
  outbound_language_defaults_to_java ⟨none, none, none⟩ _ [("code", .str "")] rfl

/-- C8, as stated, fails: the endpoint answers `{"result": [1e999]}`. The literal is too
large for a double, so the `result` that reaches the handler is the array `[Infinity]`.
The returned text is the indented `[null]`, and parsing it gives `[null]`, not the
original `result`. -/
theorem success_infinite_result_reads_back_null :
    (callToolHandler ⟨none, none, none⟩
        (fun _ => .resolved ⟨200, .obj [("result", .arr [.num (.inf false)])]⟩)
        ⟨"analyze_code_with_coai", some [("code", .str "int x;")]⟩).outcome
      = .ok { content := [⟨"text", some "[\n  null\n]"⟩], isError := none } ∧
    JSON.stringify (some (.arr [.num (.inf false)])) = some "[\n  null\n]" ∧
    JSON.parse "[\n  null\n]" = some (.arr [.null]) ∧
    JSON.parse "[\n  null\n]" ≠ some (.arr [.num (.inf false)]) := by
  have hp : JSON.parse "[\n  null\n]" = some (.arr [.null]) := by rfl
  refine ⟨by rfl, by rfl, hp, ?_⟩
  rw [hp]
  intro h
  injection h with h
  injection h with h
  injection h with h
  injection h

/-- C8, amended: when the endpoint answers a call to the registered tool successfully with
a body whose `result` is not a string and contains no number that is not finite (it is a
JSON value as it stands), the handler returns one text block whose text is
`JSON.stringify(result, null, 2)`, the serialization indented by two spaces, and
`JSON.parse` of that text is the original `result`. -/
theorem success_structured_result_round_trips (env : Env)
    (remote : PostRequest → PostOutcome) (args : List (String × JSVal)) (status : Nat)
    (body : List (String × JSVal)) (v : JSVal)
    (hres : remote (outboundPost env args) = .resolved ⟨status, .obj body⟩)
    (hv : body.lookup "result" = some v) (hns : ∀ s, v ≠ .str s)
    (hj : v.isJSON = true) :
    ∃ text, (callToolHandler env remote ⟨"analyze_code_with_coai", some args⟩).outcome
        = .ok { content := [⟨"text", some text⟩], isError := none } ∧
      JSON.stringify (some v) = some text ∧ JSON.parse text = some v := by
  refine ⟨String.mk (serializeJSONProperty [] v), ?_, rfl, parse_stringify v hj⟩
  simp only [callToolHandler, if_true, hres, tryBlock, JSVal.getProp, hv]
  cases v with
  | str s => exact absurd rfl (hns s)
  | _ => rfl

theorem success_structured_result_round_trips_witness :
    JSON.stringify (some (.obj [("a", .num (.finite "1"))])) = some "\x7b\n  \"a\": 1\n\x7d" ∧
    ∃ text, (callToolHandler ⟨none, none, none⟩
          (fun _ => .resolved ⟨200, .obj [("result", .obj [("a", .num (.finite "1"))])]⟩)
          ⟨"analyze_code_with_coai", some [("code", .str "int x;")]⟩).outcome
        = .ok { content := [⟨"text", some text⟩], isError := none } ∧
      JSON.stringify (some (.obj [("a", .num (.finite "1"))])) = some text ∧
      JSON.parse text = some (.obj [("a", .num (.finite "1"))]) :=
  ⟨by decide,
    success_structured_result_round_trips ⟨none, none, none⟩ _ [("code", .str "int x;")] 200
      [("result", .obj [("a", .num (.finite "1"))])] (.obj [("a", .num (.finite "1"))])
      rfl rfl (fun _ h => JSVal.noConfusion h) (by decide)⟩

/-- C9: the endpoint answers a call to the registered tool successfully with the body
`{}`, which has no `result` field. `JSON.stringify(undefined, null, 2)` is `undefined`,
so the one block of the returned object has no string as its text. -/
theorem success_without_result_has_undefined_text (env : Env)
    (args : List (String × JSVal)) :
    (callToolHandler env (fun _ => .resolved ⟨200, .obj []⟩)
        ⟨"analyze_code_with_coai", some args⟩).outcome
      = .ok { content := [⟨"text", none⟩], isError := none } := by
  rfl

/-- C10: whatever requests were served before and whatever the endpoint did meanwhile,
a list-tools request is answered with the same list of exactly one descriptor, named
`analyze_code_with_coai`; its input schema has `code` as its only required field, of
type `string`, and a `language` of type `string` with default `"java"` that is not
required. -/
theorem listTools_answer_is_fixed (env : Env) (world : Nat → PostRequest → PostOutcome)
    (start : Nat) (earlier later : List Request) :
    (session env world start (earlier ++ Request.listTools :: later)).get? earlier.length
        = some (.tools listToolsHandler) ∧
      (∃ d, listToolsHandler.tools = [d] ∧ d.name = "analyze_code_with_coai" ∧
        d.inputSchema.required = ["code"] ∧
        (d.inputSchema.properties.lookup "code").map (fun p => p.type) = some "string" ∧
        (d.inputSchema.properties.lookup "language").map (fun p => (p.type, p.default))
          = some ("string", some "java") ∧
        "language" ∉ d.inputSchema.required) := by
  constructor
  · induction earlier generalizing start with
    | nil => simp [session, handle]
    | cons r rs ih => simpa [session] using ih (start + 1)
  · exact ⟨_, rfl, by decide⟩

end McpBridge
